import Mathlib

/-!
Shallow embedding of the window-resizer GNOME Shell extension
(`src/extension.js`) and verification of its specification claims.

The embedding follows the source: `_cycleWindowSizes` (candidate
scaling/filtering, nearest-match search, cyclic advance via JS `%` and
`Array.prototype.at`, offscreen clamping), `_centerWindow`, and
`_notifySizeChange`.  Machine arithmetic on geometry is exact integer
arithmetic in JS doubles, modelled with `Int`; the centering and
notification computations divide and are modelled over `ℚ`.
-/

namespace WindowResizer

/-- Axis-aligned rectangle (position + size), as `Meta.Rectangle` /
`get_frame_rect` / `get_work_area_current_monitor` supply it. -/
structure Rect (α : Type) where
  x : α
  y : α
  width : α
  height : α

/-- The static configured size list (`SIZES`, extension.js lines 27-32). -/
def SIZES : List (Int × Int) :=
  [(1280, 720), (1280, 900), (1440, 900), (1600, 900)]

/-- JS remainder operator `%`: truncated remainder, sign of the dividend
(for the positive moduli used here). -/
def jsRem (a b : Int) : Int :=
  if a < 0 then -((-a) % b) else a % b

/-- JS `Array.prototype.at`: a negative index counts back from the end of
the array; out-of-range indices yield `undefined` (`none`). -/
def jsAt (l : List α) (i : Int) : Option α :=
  if 0 ≤ i then l[i.toNat]?
  else if 0 ≤ (l.length : Int) + i then l[((l.length : Int) + i).toNat]?
  else none

/-- Manhattan error of a candidate against the current frame size
(extension.js line 92): `Math.abs(width - outerRect.width) +
Math.abs(height - outerRect.height)`. -/
def errOf (outerRect : Rect Int) (c : Int × Int) : Int :=
  |c.1 - outerRect.width| + |c.2 - outerRect.height|

/-- The nearest-match loop of `_cycleWindowSizes` (lines 85-97).  The
accumulator holds `(nearestIndex, nearestError)`, `none` while
`nearestIndex === undefined`; the guard
`nearestIndex === undefined || error < nearestError` updates on a strictly
smaller error only, so the earliest index wins ties. -/
def nearestLoop (outerRect : Rect Int) :
    List (Int × Int) → Nat → Option (Nat × Int) → Option (Nat × Int)
  | [], _, best => best
  | c :: rest, i, none =>
      nearestLoop outerRect rest (i + 1) (some (i, errOf outerRect c))
  | c :: rest, i, some (bi, be) =>
      nearestLoop outerRect rest (i + 1)
        (if errOf outerRect c < be then some (i, errOf outerRect c) else some (bi, be))

/-- Candidate scaling and filtering (lines 81-82): every size is multiplied
by the scale factor on both axes and kept only if both dimensions fit the
work area. -/
def scaledSizes (sizes : List (Int × Int)) (scaleFactor : Int) (workArea : Rect Int) :
    List (Int × Int) :=
  (sizes.map fun s => (s.1 * scaleFactor, s.2 * scaleFactor)).filter
    fun s => decide (s.1 ≤ workArea.width) && decide (s.2 ≤ workArea.height)

/-- Cyclic advance (lines 100-101):
`newIndex = (nearestIndex + (backwards ? -1 : 1)) % scaledSizes.length`
followed by `scaledSizes.at(newIndex)`.  The JS `%` may return `-1`, which
`at` resolves from the end of the array. -/
def advance (cands : List (Int × Int)) (nearestIndex : Nat) (backwards : Bool) :
    Option (Int × Int) :=
  jsAt cands (jsRem ((nearestIndex : Int) + (if backwards then -1 else 1)) (cands.length : Int))

/-- Offscreen clamping (lines 104-109): keep the current top-left; shift an
axis only when the far edge would exceed the work area on that axis. -/
def clampPos (workArea : Rect Int) (x y newWidth newHeight : Int) : Int × Int :=
  let newX := if x + newWidth > workArea.x + workArea.width
    then max workArea.x (workArea.x + workArea.width - newWidth) else x
  let newY := if y + newHeight > workArea.y + workArea.height
    then max workArea.y (workArea.y + workArea.height - newHeight) else y
  (newX, newY)

/-- The core of `_cycleWindowSizes` (lines 69-116).  `maximized` is the
window's maximize state; the first component records whether `unmaximize`
was invoked (lines 73-74, before any geometry is read).  `outerRect` is
the frame rect read after that.  The second component is the geometry
passed to `move_resize_frame` as `(newWidth, newHeight, newX, newY)`, or
`none` when the invocation throws first: on an empty filtered list
`nearestIndex` stays `undefined`, `newIndex` is `NaN`, `scaledSizes.at(NaN)`
is `undefined`, and the destructuring on line 101 raises a `TypeError`
before `connect`/`move_resize_frame` run, so no notification is emitted
and no move/resize is requested. -/
def cycleWindowSizes (maximized : Bool) (workArea outerRect : Rect Int)
    (sizes : List (Int × Int)) (scaleFactor : Int) (backwards : Bool) :
    Bool × Option (Int × Int × Int × Int) :=
  let unmaximize := maximized
  let cands := scaledSizes sizes scaleFactor workArea
  match nearestLoop outerRect cands 0 none with
  | none => (unmaximize, none)
  | some (nearestIndex, _) =>
      match advance cands nearestIndex backwards with
      | none => (unmaximize, none)
      | some (newWidth, newHeight) =>
          let p := clampPos workArea outerRect.x outerRect.y newWidth newHeight
          (unmaximize, some (newWidth, newHeight, p.1, p.2))

/-- The position computation of `_centerWindow` (lines 152-160), over `ℚ`
because the JS divisions by 2 are exact number divisions.  Returns the
`(newX, newY, width, height)` passed to `move_resize_frame`; the size is
the unchanged frame size and no clamping is applied. -/
def centerWindow (workArea outerRect : Rect ℚ) : ℚ × ℚ × ℚ × ℚ :=
  let newX := workArea.x + (workArea.width - outerRect.width) / 2
  let newY := workArea.y + (workArea.height - outerRect.height) / 2
  (newX, newY, outerRect.width, outerRect.height)

/-- The GJS format conversion `%d`: `parseInt` of the argument, i.e.
truncation toward zero of the (here rational-valued) number. -/
def fmtD (q : ℚ) : Int :=
  if 0 ≤ q then ⌊q⌋ else -⌊-q⌋

/-- Rounding to two decimals, as the `%.2f` conversion renders the actual
ratio numerator on line 133. -/
def roundTo2 (q : ℚ) : ℚ :=
  (round (q * 100) : ℤ) / 100

/-- The content of `_notifySizeChange` (lines 121-136): the logical size
shown by `'%d×%d'.format(width / scaleFactor, height / scaleFactor)`, and
the optional actual-ratio suffix, present exactly when
`Math.abs(9 * width / height - 16) > 0.01` (lines 131-133). -/
def notifySizeChange (width height : Int) (scaleFactor : ℚ) :
    (Int × Int) × Option ℚ :=
  let logical := (fmtD ((width : ℚ) / scaleFactor), fmtD ((height : ℚ) / scaleFactor))
  let actualNumerator : ℚ := 9 * (width : ℚ) / (height : ℚ)
  let suffix := if |actualNumerator - 16| > 1 / 100 then some (roundTo2 actualNumerator) else none
  (logical, suffix)

lemma nearestLoop_cons_none (outerRect : Rect Int) (c : Int × Int)
    (rest : List (Int × Int)) (i : Nat) :
    nearestLoop outerRect (c :: rest) i none
      = nearestLoop outerRect rest (i + 1) (some (i, errOf outerRect c)) := rfl

lemma nearestLoop_cons_some (outerRect : Rect Int) (c : Int × Int)
    (rest : List (Int × Int)) (i bi : Nat) (be : Int) :
    nearestLoop outerRect (c :: rest) i (some (bi, be))
      = nearestLoop outerRect rest (i + 1)
          (if errOf outerRect c < be then some (i, errOf outerRect c) else some (bi, be)) := rfl

lemma errOf_nonneg (outerRect : Rect Int) (c : Int × Int) : 0 ≤ errOf outerRect c :=
  add_nonneg (abs_nonneg _) (abs_nonneg _)

lemma errOf_eq_zero (outerRect : Rect Int) (c : Int × Int) :
    errOf outerRect c = 0 ↔ c.1 = outerRect.width ∧ c.2 = outerRect.height := by
  unfold errOf
  rw [add_eq_zero_iff_of_nonneg (abs_nonneg _) (abs_nonneg _), abs_eq_zero, abs_eq_zero,
    sub_eq_zero, sub_eq_zero]

/-- Invariant of the nearest-match loop, processing the remaining list `l`
from global index `i` with current accumulator `(bi, be)`, `bi < i`: the
result exists, its error is at most `be` and at most every error in `l`, it
comes from the accumulator unchanged or from a strictly better element of
`l`, and every element of `l` strictly before the result index has a
strictly larger error. -/
lemma nearestLoop_spec (outerRect : Rect Int) (l : List (Int × Int)) :
    ∀ (i bi : Nat) (be : Int), bi < i →
      ∃ k e, nearestLoop outerRect l i (some (bi, be)) = some (k, e) ∧
        e ≤ be ∧
        ((k = bi ∧ e = be) ∨
          ∃ j c, l[j]? = some c ∧ k = i + j ∧ e = errOf outerRect c ∧ e < be) ∧
        (∀ (j : Nat) (c : Int × Int), l[j]? = some c → e ≤ errOf outerRect c) ∧
        (∀ (j : Nat) (c : Int × Int), l[j]? = some c → i + j < k → e < errOf outerRect c) := by
  induction l with
  | nil =>
      intro i bi be hbi
      exact ⟨bi, be, rfl, le_refl be, Or.inl ⟨rfl, rfl⟩,
        fun j c hj => by simp at hj,
        fun j c hj _ => by simp at hj⟩
  | cons c rest ih =>
      intro i bi be hbi
      by_cases hc : errOf outerRect c < be
      · obtain ⟨k, e, hrun, he, hsrc, hmin, hstrict⟩ :=
          ih (i + 1) i (errOf outerRect c) (Nat.lt_succ_self i)
        refine ⟨k, e, ?_, ?_, ?_, ?_, ?_⟩
        · rw [nearestLoop_cons_some, if_pos hc]; exact hrun
        · exact le_of_lt (lt_of_le_of_lt he hc)
        · rcases hsrc with ⟨hk, he'⟩ | ⟨j, c', hj, hk, he', hlt⟩
          · refine Or.inr ⟨0, c, by simp, by omega, he', ?_⟩
            rw [he']; exact hc
          · exact Or.inr ⟨j + 1, c', by simpa using hj, by omega, he', lt_trans hlt hc⟩
        · intro j c' hj
          cases j with
          | zero =>
              rw [List.getElem?_cons_zero] at hj
              injection hj with hj; subst hj
              exact he
          | succ j' =>
              rw [List.getElem?_cons_succ] at hj
              exact hmin j' c' hj
        · intro j c' hj hjk
          cases j with
          | zero =>
              rw [List.getElem?_cons_zero] at hj
              injection hj with hj; subst hj
              rcases hsrc with ⟨hk, _⟩ | ⟨j', c'', hj', hk, he', hlt⟩
              · omega
              · exact hlt
          | succ j' =>
              rw [List.getElem?_cons_succ] at hj
              exact hstrict j' c' hj (by omega)
      · obtain ⟨k, e, hrun, he, hsrc, hmin, hstrict⟩ :=
          ih (i + 1) bi be (Nat.lt_succ_of_lt hbi)
        refine ⟨k, e, ?_, he, ?_, ?_, ?_⟩
        · rw [nearestLoop_cons_some, if_neg hc]; exact hrun
        · rcases hsrc with h | ⟨j, c', hj, hk, he', hlt⟩
          · exact Or.inl h
          · exact Or.inr ⟨j + 1, c', by simpa using hj, by omega, he', hlt⟩
        · intro j c' hj
          cases j with
          | zero =>
              rw [List.getElem?_cons_zero] at hj
              injection hj with hj; subst hj
              exact le_trans he (not_lt.mp hc)
          | succ j' =>
              rw [List.getElem?_cons_succ] at hj
              exact hmin j' c' hj
        · intro j c' hj hjk
          cases j with
          | zero =>
              rw [List.getElem?_cons_zero] at hj
              injection hj with hj; subst hj
              rcases hsrc with ⟨hk, _⟩ | ⟨j', c'', hj', hk, he', hlt⟩
              · omega
              · exact lt_of_lt_of_le hlt (not_lt.mp hc)
          | succ j' =>
              rw [List.getElem?_cons_succ] at hj
              exact hstrict j' c' hj (by omega)

/-- The full nearest-match search on a non-empty candidate list returns an
in-range index whose candidate realises the minimum Manhattan error, and
every strictly earlier candidate has a strictly larger error. -/
lemma findNearest_spec (outerRect : Rect Int) (cands : List (Int × Int)) (hne : cands ≠ []) :
    ∃ k e, nearestLoop outerRect cands 0 none = some (k, e) ∧
      k < cands.length ∧
      (∃ c, cands[k]? = some c ∧ e = errOf outerRect c) ∧
      (∀ (j : Nat) (c : Int × Int), cands[j]? = some c → e ≤ errOf outerRect c) ∧
      (∀ (j : Nat) (c : Int × Int), cands[j]? = some c → j < k → e < errOf outerRect c) := by
  cases cands with
  | nil => exact absurd rfl hne
  | cons c rest =>
      obtain ⟨k, e, hrun, he, hsrc, hmin, hstrict⟩ :=
        nearestLoop_spec outerRect rest 1 0 (errOf outerRect c) Nat.one_pos
      have hrun' : nearestLoop outerRect (c :: rest) 0 none = some (k, e) := by
        rw [nearestLoop_cons_none]; exact hrun
      have hksrc : ∃ c', (c :: rest)[k]? = some c' ∧ e = errOf outerRect c' := by
        rcases hsrc with ⟨hk, he'⟩ | ⟨j, c', hj, hk, he', _⟩
        · exact ⟨c, by rw [hk]; simp, he'⟩
        · exact ⟨c', by rw [hk, show 1 + j = j + 1 by omega]; simpa using hj, he'⟩
      refine ⟨k, e, hrun', ?_, hksrc, ?_, ?_⟩
      · obtain ⟨c', hc', _⟩ := hksrc
        by_contra hlen
        rw [List.getElem?_eq_none (show (c :: rest).length ≤ k by omega)] at hc'
        exact Option.noConfusion hc'
      · intro j c' hj
        cases j with
        | zero =>
            rw [List.getElem?_cons_zero] at hj
            injection hj with hj; subst hj
            exact he
        | succ j' =>
            rw [List.getElem?_cons_succ] at hj
            exact hmin j' c' hj
      · intro j c' hj hjk
        cases j with
        | zero =>
            rw [List.getElem?_cons_zero] at hj
            injection hj with hj; subst hj
            rcases hsrc with ⟨hk, _⟩ | ⟨j', c'', hj', hk, he', hlt⟩
            · omega
            · exact hlt
        | succ j' =>
            rw [List.getElem?_cons_succ] at hj
            exact hstrict j' c' hj (by omega)

lemma jsAt_natCast (l : List α) (m : Nat) : jsAt l ((m : Nat) : Int) = l[m]? := by
  unfold jsAt
  rw [if_pos (Int.natCast_nonneg m)]
  simp

/-- Forward advance selects exactly the mathematically non-negative
`(nearestIndex + 1) mod length` candidate. -/
lemma advance_false (cands : List (Int × Int)) (k : Nat) (_hk : k < cands.length) :
    advance cands k false = cands[(k + 1) % cands.length]? := by
  unfold advance jsRem
  rw [show ((k : Int) + (if (false : Bool) then -1 else 1)) = ((k + 1 : Nat) : Int) by norm_num,
    if_neg (show ¬(((k + 1 : Nat) : Int) < 0) by omega),
    show (((k + 1 : Nat) : Int) % ((cands.length : Nat) : Int))
        = (((k + 1) % cands.length : Nat) : Int) by norm_cast]
  exact jsAt_natCast cands ((k + 1) % cands.length)

/-- Backward advance selects exactly the mathematically non-negative
`(nearestIndex - 1) mod length` candidate, i.e.
`(nearestIndex + length - 1) mod length`: for `nearestIndex = 0` the JS
remainder is `-1` and `Array.prototype.at` resolves it to the last
element. -/
lemma advance_true (cands : List (Int × Int)) (k : Nat) (hk : k < cands.length) :
    advance cands k true = cands[(k + cands.length - 1) % cands.length]? := by
  have hn : 0 < cands.length := by omega
  unfold advance jsRem
  rw [show ((k : Int) + (if (true : Bool) then -1 else 1)) = (k : Int) - 1 by norm_num [sub_eq_add_neg]]
  rcases Nat.eq_zero_or_pos k with rfl | hkpos
  · rw [if_pos (show ((0 : Nat) : Int) - 1 < 0 by omega),
      show -(((0 : Nat) : Int) - 1) = 1 by omega,
      show (0 + cands.length - 1) % cands.length = cands.length - 1 from by
        rw [show 0 + cands.length - 1 = cands.length - 1 by omega]
        exact Nat.mod_eq_of_lt (by omega)]
    rcases Nat.lt_or_ge 1 cands.length with h2 | h2
    · rw [show ((1 : Int) % (cands.length : Int)) = 1 from
        Int.emod_eq_of_lt (by omega) (by omega)]
      unfold jsAt
      rw [if_neg (by omega), if_pos (by omega)]
      congr 1
      omega
    · have h1 : cands.length = 1 := by omega
      rw [h1]
      norm_num [jsAt]
  · rw [if_neg (show ¬((k : Int) - 1 < 0) by omega),
      show ((k : Int) - 1) = ((k - 1 : Nat) : Int) by omega,
      show (((k - 1 : Nat) : Int) % ((cands.length : Nat) : Int))
          = (((k - 1) % cands.length : Nat) : Int) by norm_cast,
      jsAt_natCast,
      show (k + cands.length - 1) % cands.length = (k - 1) % cands.length from by
        rw [show k + cands.length - 1 = k - 1 + cands.length by omega, Nat.add_mod_right]]

lemma mod_succ_pred (k n : Nat) (h : k < n) : ((k + 1) % n + n - 1) % n = k := by
  rcases Nat.lt_or_ge (k + 1) n with h1 | h1
  · rw [Nat.mod_eq_of_lt h1, show k + 1 + n - 1 = k + n by omega, Nat.add_mod_right,
      Nat.mod_eq_of_lt h]
  · have h2 : k + 1 = n := by omega
    rw [h2, Nat.mod_self, show 0 + n - 1 = k by omega, Nat.mod_eq_of_lt h]

lemma mod_pred_succ (k n : Nat) (h : k < n) : ((k + n - 1) % n + 1) % n = k := by
  rcases Nat.eq_zero_or_pos k with rfl | hk
  · rw [show 0 + n - 1 = n - 1 by omega, Nat.mod_eq_of_lt (show n - 1 < n by omega),
      show n - 1 + 1 = n by omega, Nat.mod_self]
  · rw [show k + n - 1 = k - 1 + n by omega, Nat.add_mod_right,
      Nat.mod_eq_of_lt (show k - 1 < n by omega), show k - 1 + 1 = k by omega,
      Nat.mod_eq_of_lt h]

lemma mem_of_getElem_opt {l : List (Int × Int)} {j : Nat} {c : Int × Int}
    (h : l[j]? = some c) : c ∈ l := by
  obtain ⟨hj, hc⟩ := List.getElem?_eq_some.mp h
  exact hc ▸ List.getElem_mem hj

lemma scaledSizes_fits {sizes : List (Int × Int)} {scaleFactor : Int} {workArea : Rect Int}
    {c : Int × Int} (h : c ∈ scaledSizes sizes scaleFactor workArea) :
    c.1 ≤ workArea.width ∧ c.2 ≤ workArea.height := by
  have := (List.mem_filter.mp h).2
  simpa using this

lemma clampPos_def (workArea : Rect Int) (x y newWidth newHeight : Int) :
    clampPos workArea x y newWidth newHeight
      = (if x + newWidth > workArea.x + workArea.width
           then max workArea.x (workArea.x + workArea.width - newWidth) else x,
         if y + newHeight > workArea.y + workArea.height
           then max workArea.y (workArea.y + workArea.height - newHeight) else y) := rfl

lemma clampPos_right (workArea : Rect Int) (x y newWidth newHeight : Int)
    (hw : newWidth ≤ workArea.width) :
    (clampPos workArea x y newWidth newHeight).1 + newWidth
      ≤ workArea.x + workArea.width := by
  rw [clampPos_def]
  dsimp only
  split_ifs <;> omega

lemma clampPos_bottom (workArea : Rect Int) (x y newWidth newHeight : Int)
    (hh : newHeight ≤ workArea.height) :
    (clampPos workArea x y newWidth newHeight).2 + newHeight
      ≤ workArea.y + workArea.height := by
  rw [clampPos_def]
  dsimp only
  split_ifs <;> omega

lemma centerWindow_def (workArea outerRect : Rect ℚ) :
    centerWindow workArea outerRect
      = (workArea.x + (workArea.width - outerRect.width) / 2,
         workArea.y + (workArea.height - outerRect.height) / 2,
         outerRect.width, outerRect.height) := rfl

/-- C2: with the default `SIZES` doubled by scale factor 2 against a
1000×800 work area, every scaled candidate is filtered out.  The code then
still unmaximizes a maximized window (first component `true`, a
window-state mutation that happens before the candidate list is built) and
aborts with the line-101 `TypeError` (second component `none`): no
move/resize is requested and no notification is emitted, but the claimed
"no window-state mutation" policy is violated. -/
theorem empty_candidates_cycle :
    cycleWindowSizes true ⟨0, 0, 1000, 800⟩ ⟨10, 10, 1280, 720⟩ SIZES 2 false
      = (true, none) := by decide

/-- C3: on every non-empty candidate list the nearest-match search returns
an in-range index realising the minimum Manhattan error
`|width - outerRect.width| + |height - outerRect.height|`, and on ties the
earliest list index wins: every strictly earlier candidate has a strictly
larger error. -/
theorem nearest_match_minimises (outerRect : Rect Int) (cands : List (Int × Int))
    (hne : cands ≠ []) :
    ∃ k e, nearestLoop outerRect cands 0 none = some (k, e) ∧
      k < cands.length ∧
      (∃ c, cands[k]? = some c ∧ e = errOf outerRect c) ∧
      (∀ (j : Nat) (c : Int × Int), cands[j]? = some c → e ≤ errOf outerRect c) ∧
      (∀ (j : Nat) (c : Int × Int), cands[j]? = some c → j < k → e < errOf outerRect c) :=
  findNearest_spec outerRect cands hne

/-- Witness for C3 at a concrete tie: against a 1280×810 frame both
candidates have error 90, and the earlier index is chosen. -/
theorem nearest_match_minimises_witness :
    ∃ k e, nearestLoop ⟨0, 0, 1280, 810⟩ [((1280 : Int), (720 : Int)), (1280, 900)] 0 none
        = some (k, e) ∧
      k < [((1280 : Int), (720 : Int)), (1280, 900)].length ∧
      (∃ c, [((1280 : Int), (720 : Int)), (1280, 900)][k]? = some c
        ∧ e = errOf ⟨0, 0, 1280, 810⟩ c) ∧
      (∀ (j : Nat) (c : Int × Int), [((1280 : Int), (720 : Int)), (1280, 900)][j]? = some c →
        e ≤ errOf ⟨0, 0, 1280, 810⟩ c) ∧
      (∀ (j : Nat) (c : Int × Int), [((1280 : Int), (720 : Int)), (1280, 900)][j]? = some c →
        j < k → e < errOf ⟨0, 0, 1280, 810⟩ c) :=
  nearest_match_minimises ⟨0, 0, 1280, 810⟩ [(1280, 720), (1280, 900)] (by decide)

/-- C4: the cyclic advance selects the candidate at the mathematically
non-negative index `(nearestIndex + 1) mod n` forward and
`(nearestIndex - 1) mod n` (written `(nearestIndex + n - 1) mod n`)
backward; in particular forward from the last index wraps to index 0 and
backward from index 0 wraps to the last index. -/
theorem cyclic_advance_wraps (cands : List (Int × Int)) (k : Nat) (hk : k < cands.length) :
    advance cands k false = cands[(k + 1) % cands.length]? ∧
    advance cands k true = cands[(k + cands.length - 1) % cands.length]? ∧
    (k = cands.length - 1 → advance cands k false = cands[0]?) ∧
    (k = 0 → advance cands k true = cands[cands.length - 1]?) := by
  refine ⟨advance_false cands k hk, advance_true cands k hk, ?_, ?_⟩
  · intro hlast
    rw [advance_false cands k hk, hlast,
      show cands.length - 1 + 1 = cands.length from by omega, Nat.mod_self]
  · intro h0
    rw [advance_true cands k hk, h0,
      show 0 + cands.length - 1 = cands.length - 1 from by omega,
      Nat.mod_eq_of_lt (show cands.length - 1 < cands.length from by omega)]

/-- Witness for C4 on a three-element list at the last index. -/
theorem cyclic_advance_wraps_witness :
    advance [((1280 : Int), (720 : Int)), (1280, 900), (1440, 900)] 2 false
        = [((1280 : Int), (720 : Int)), (1280, 900), (1440, 900)][(2 + 1) % 3]? ∧
    advance [((1280 : Int), (720 : Int)), (1280, 900), (1440, 900)] 2 true
        = [((1280 : Int), (720 : Int)), (1280, 900), (1440, 900)][(2 + 3 - 1) % 3]? ∧
    (2 = 3 - 1 → advance [((1280 : Int), (720 : Int)), (1280, 900), (1440, 900)] 2 false
        = [((1280 : Int), (720 : Int)), (1280, 900), (1440, 900)][0]?) ∧
    (2 = 0 → advance [((1280 : Int), (720 : Int)), (1280, 900), (1440, 900)] 2 true
        = [((1280 : Int), (720 : Int)), (1280, 900), (1440, 900)][3 - 1]?) :=
  cyclic_advance_wraps [(1280, 720), (1280, 900), (1440, 900)] 2 (by decide)

/-- C5 counterexample: for a window whose frame starts at (-50, -50), the
selected 1280×900 candidate fits at that position, so the clamping step
keeps newX = newY = -50 even though the work area starts at (0, 0): the
cycle operation produces newX < workArea.x, refuting the unconditional
claim. -/
theorem clamp_origin_cex :
    (cycleWindowSizes false ⟨0, 0, 2000, 1200⟩ ⟨-50, -50, 1280, 720⟩ SIZES 1 false).2
      = some (1280, 900, -50, -50) ∧ ((-50 : Int) < (0 : Int)) := by decide

/-- C5 amended: the clamping step never moves the top-left left of or above
the work-area origin — when the window's x (resp. y) is at least the
work-area origin, the clamped coordinate also is — and it leaves newX
(resp. newY) unchanged whenever the candidate already fits at the current
position. -/
theorem clamp_amended (workArea : Rect Int) (x y newWidth newHeight : Int) :
    (workArea.x ≤ x → workArea.x ≤ (clampPos workArea x y newWidth newHeight).1) ∧
    (x + newWidth ≤ workArea.x + workArea.width →
      (clampPos workArea x y newWidth newHeight).1 = x) ∧
    (workArea.y ≤ y → workArea.y ≤ (clampPos workArea x y newWidth newHeight).2) ∧
    (y + newHeight ≤ workArea.y + workArea.height →
      (clampPos workArea x y newWidth newHeight).2 = y) := by
  rw [clampPos_def]
  refine ⟨?_, ?_, ?_, ?_⟩ <;> intro h <;> dsimp only <;> split_ifs <;> omega

/-- Witness for C5 amended at the work area 0,0,1000,800 and a fitting
500×400 candidate at (10, 10). -/
theorem clamp_amended_witness :
    ((0 : Int) ≤ 10 → (0 : Int) ≤ (clampPos ⟨0, 0, 1000, 800⟩ 10 10 500 400).1) ∧
    ((10 : Int) + 500 ≤ 0 + 1000 → (clampPos ⟨0, 0, 1000, 800⟩ 10 10 500 400).1 = 10) ∧
    ((0 : Int) ≤ 10 → (0 : Int) ≤ (clampPos ⟨0, 0, 1000, 800⟩ 10 10 500 400).2) ∧
    ((10 : Int) + 400 ≤ 0 + 800 → (clampPos ⟨0, 0, 1000, 800⟩ 10 10 500 400).2 = 10) :=
  clamp_amended ⟨0, 0, 1000, 800⟩ 10 10 500 400

/-- C6: centering computes `newX = workArea.x + (workArea.width -
outerRect.width) / 2` (and the analogue vertically), keeps the window's
size unchanged, and applies no clamping, so the window's centre coincides
with the work-area centre exactly — also when the window is larger than
the work area. -/
theorem center_window_exact (workArea outerRect : Rect ℚ) :
    centerWindow workArea outerRect
      = (workArea.x + (workArea.width - outerRect.width) / 2,
         workArea.y + (workArea.height - outerRect.height) / 2,
         outerRect.width, outerRect.height) ∧
    (centerWindow workArea outerRect).1 + outerRect.width / 2
      = workArea.x + workArea.width / 2 ∧
    (centerWindow workArea outerRect).2.1 + outerRect.height / 2
      = workArea.y + workArea.height / 2 := by
  refine ⟨centerWindow_def workArea outerRect, ?_, ?_⟩ <;>
    rw [centerWindow_def] <;> dsimp only <;> ring

/-- C7: the notification carries the actual-ratio suffix exactly when
`|9 * width / height - 16| > 0.01`. -/
theorem ratio_suffix_iff (width height : Int) (scaleFactor : ℚ) (_hh : 0 < height) :
    ((notifySizeChange width height scaleFactor).2).isSome
      ↔ |9 * (width : ℚ) / (height : ℚ) - 16| > 1 / 100 := by
  unfold notifySizeChange
  dsimp only
  split_ifs with hc
  · simpa using hc
  · simpa using hc

/-- Witness for C7 at the host-constrained size 1600×894. -/
theorem ratio_suffix_iff_witness :
    (0 : Int) < 894 ∧
      (((notifySizeChange 1600 894 1).2).isSome
        ↔ |9 * ((1600 : Int) : ℚ) / ((894 : Int) : ℚ) - 16| > 1 / 100) :=
  ⟨by decide, ratio_suffix_iff 1600 894 1 (by decide)⟩

/-- Sanity: at 1600×900 the ratio is exactly 16 and no suffix is shown. -/
lemma ratio_suffix_none_at_1600x900 : (notifySizeChange 1600 900 1).2 = none := by
  unfold notifySizeChange
  dsimp only
  rw [if_neg (by norm_num)]

/-- Sanity: at 1600×894 the ratio is about 16.11 and the suffix is shown. -/
lemma ratio_suffix_some_at_1600x894 : ((notifySizeChange 1600 894 1).2).isSome := by
  unfold notifySizeChange
  dsimp only
  rw [if_pos (by rw [gt_iff_lt, lt_abs]; left; norm_num)]
  rfl

/-- C8 counterexample: at physical size 1603×900 with scale factor 2 the
`%d` conversion truncates `1603 / 2 = 801.5` to `801`, while rounding to
the nearest integer would give `802`: the reported logical size is not
`round(width / scaleFactor) × round(height / scaleFactor)`. -/
theorem logical_size_round_cex :
    (notifySizeChange 1603 900 2).1
      ≠ (round (((1603 : Int) : ℚ) / 2), round (((900 : Int) : ℚ) / 2)) := by
  have h1 : (notifySizeChange 1603 900 2).1.1 = 801 := by
    unfold notifySizeChange fmtD
    dsimp only
    rw [if_pos (by norm_num)]
    norm_num
  have h2 : round (((1603 : Int) : ℚ) / 2) = 802 := by
    rw [round_eq]
    norm_num
  intro hEq
  rw [Prod.ext_iff] at hEq
  rw [hEq.1, h2] at h1
  exact absurd h1 (by decide)

/-- C8 amended: the notification reports the logical size as
`trunc(width / scaleFactor) × trunc(height / scaleFactor)` — the GJS `%d`
conversion truncates toward zero (the floor, for the non-negative sizes
that occur) — which agrees with rounding exactly when each quotient's
fractional part is below one half, in particular whenever the dimensions
are multiples of the scale factor. -/
theorem logical_size_trunc (width height : Int) (scaleFactor : ℚ)
    (hw : 0 ≤ width) (hh : 0 ≤ height) (hs : 0 < scaleFactor) :
    (notifySizeChange width height scaleFactor).1
      = (⌊(width : ℚ) / scaleFactor⌋, ⌊(height : ℚ) / scaleFactor⌋) := by
  unfold notifySizeChange fmtD
  dsimp only
  rw [if_pos (div_nonneg (by exact_mod_cast hw) hs.le),
    if_pos (div_nonneg (by exact_mod_cast hh) hs.le)]

/-- Witness for C8 amended at 1603×900, scale factor 2. -/
theorem logical_size_trunc_witness :
    (notifySizeChange 1603 900 2).1
      = (⌊((1603 : Int) : ℚ) / 2⌋, ⌊((900 : Int) : ℚ) / 2⌋) :=
  logical_size_trunc 1603 900 2 (by decide) (by decide) two_pos

/-- C9: on a non-empty candidate list the cycle operation always requests a
geometry that fits the work area on the far edges: the selected size passed
the filter, and after clamping the right/bottom edges do not exceed the
work area (stated, as claimed, for windows whose top-left starts at or
past the work-area origin). -/
theorem cycle_result_fits (maximized backwards : Bool) (workArea outerRect : Rect Int)
    (sizes : List (Int × Int)) (scaleFactor : Int)
    (hne : scaledSizes sizes scaleFactor workArea ≠ [])
    (_hx : workArea.x ≤ outerRect.x) (_hy : workArea.y ≤ outerRect.y) :
    ∃ w h x y,
      (cycleWindowSizes maximized workArea outerRect sizes scaleFactor backwards).2
        = some (w, h, x, y) ∧
      w ≤ workArea.width ∧ h ≤ workArea.height ∧
      x + w ≤ workArea.x + workArea.width ∧ y + h ≤ workArea.y + workArea.height := by
  obtain ⟨k, e, hrun, hk, _, _, _⟩ :=
    findNearest_spec outerRect (scaledSizes sizes scaleFactor workArea) hne
  have hn : 0 < (scaledSizes sizes scaleFactor workArea).length := by omega
  have hadv : ∃ w h, advance (scaledSizes sizes scaleFactor workArea) k backwards
      = some (w, h) := by
    cases backwards
    · rw [advance_false _ k hk]
      exact ⟨_, _, List.getElem?_eq_getElem (Nat.mod_lt _ hn)⟩
    · rw [advance_true _ k hk]
      exact ⟨_, _, List.getElem?_eq_getElem (Nat.mod_lt _ hn)⟩
  obtain ⟨w, h, hadv⟩ := hadv
  have hmem : (w, h) ∈ scaledSizes sizes scaleFactor workArea := by
    cases backwards
    · rw [advance_false _ k hk] at hadv
      exact mem_of_getElem_opt hadv
    · rw [advance_true _ k hk] at hadv
      exact mem_of_getElem_opt hadv
  have hfits := scaledSizes_fits hmem
  refine ⟨w, h, (clampPos workArea outerRect.x outerRect.y w h).1,
    (clampPos workArea outerRect.x outerRect.y w h).2, ?_, hfits.1, hfits.2,
    clampPos_right workArea outerRect.x outerRect.y w h hfits.1,
    clampPos_bottom workArea outerRect.x outerRect.y w h hfits.2⟩
  simp only [cycleWindowSizes, hrun, hadv]

/-- Witness for C9: work area 2000×1200, window at (1900, 1100) sized
1280×720; the 1280×900 target is clamped back inside. -/
theorem cycle_result_fits_witness :
    ∃ w h x y,
      (cycleWindowSizes false ⟨0, 0, 2000, 1200⟩ ⟨1900, 1100, 1280, 720⟩ SIZES 1 false).2
        = some (w, h, x, y) ∧
      w ≤ (2000 : Int) ∧ h ≤ (1200 : Int) ∧
      x + w ≤ (0 : Int) + 2000 ∧ y + h ≤ (0 : Int) + 1200 :=
  cycle_result_fits false false ⟨0, 0, 2000, 1200⟩ ⟨1900, 1100, 1280, 720⟩ SIZES 1
    (by decide) (by decide) (by decide)

/-- C10: when exactly one scaled size fits the work area, cycling in either
direction selects that single candidate: forward `(0 + 1) mod 1 = 0`, and
backward the JS `-1 % 1` evaluates to `-0`, which `at` resolves to index 0
as well. -/
theorem single_candidate_cycle (maximized : Bool) (workArea outerRect : Rect Int)
    (sizes : List (Int × Int)) (scaleFactor : Int) (c : Int × Int)
    (hone : scaledSizes sizes scaleFactor workArea = [c]) :
    ∀ backwards : Bool, ∃ x y,
      (cycleWindowSizes maximized workArea outerRect sizes scaleFactor backwards).2
        = some (c.1, c.2, x, y) := by
  obtain ⟨cw, ch⟩ := c
  intro backwards
  have hrun : nearestLoop outerRect (scaledSizes sizes scaleFactor workArea) 0 none
      = some (0, errOf outerRect (cw, ch)) := by
    rw [hone]
    rfl
  have hadv : advance (scaledSizes sizes scaleFactor workArea) 0 backwards
      = some (cw, ch) := by
    rw [hone]
    cases backwards
    · rw [advance_false [(cw, ch)] 0 (by simp)]
      simp
    · rw [advance_true [(cw, ch)] 0 (by simp)]
      simp
  exact ⟨(clampPos workArea outerRect.x outerRect.y cw ch).1,
    (clampPos workArea outerRect.x outerRect.y cw ch).2,
    by simp only [cycleWindowSizes, hrun, hadv]⟩

/-- Witness for C10: against a 1300×800 work area only 1280×720 fits, and
both directions select it. -/
theorem single_candidate_cycle_witness :
    (∃ x y, (cycleWindowSizes false ⟨0, 0, 1300, 800⟩ ⟨0, 0, 600, 400⟩ SIZES 1 false).2
        = some (((1280 : Int), (720 : Int)).1, ((1280 : Int), (720 : Int)).2, x, y)) ∧
    (∃ x y, (cycleWindowSizes false ⟨0, 0, 1300, 800⟩ ⟨0, 0, 600, 400⟩ SIZES 1 true).2
        = some (((1280 : Int), (720 : Int)).1, ((1280 : Int), (720 : Int)).2, x, y)) :=
  ⟨single_candidate_cycle false ⟨0, 0, 1300, 800⟩ ⟨0, 0, 600, 400⟩ SIZES 1 (1280, 720)
      (by decide) false,
    single_candidate_cycle false ⟨0, 0, 1300, 800⟩ ⟨0, 0, 600, 400⟩ SIZES 1 (1280, 720)
      (by decide) true⟩

/-- Re-anchoring: when the current frame size equals the candidate at
index `j` of a duplicate-free candidate list, the nearest-match search
returns exactly `(j, 0)` — the zero-error index is unique, and zero error
beats every other error strictly. -/
lemma nearest_refind (cands : List (Int × Int)) (x' y' w1 h1 : Int) (j : Nat)
    (hnd : cands.Nodup) (hj : cands[j]? = some (w1, h1)) :
    nearestLoop ⟨x', y', w1, h1⟩ cands 0 none = some (j, 0) := by
  have hne : cands ≠ [] := by
    intro hnil
    rw [hnil] at hj
    simp at hj
  obtain ⟨k2, e2, hrun2, hk2, ⟨c2, hc2, he2⟩, hmin2, hstrict2⟩ :=
    findNearest_spec ⟨x', y', w1, h1⟩ cands hne
  have herr0 : errOf ⟨x', y', w1, h1⟩ (w1, h1) = 0 := by simp [errOf]
  have hle : e2 ≤ 0 := herr0 ▸ hmin2 j (w1, h1) hj
  have hge : 0 ≤ e2 := he2 ▸ errOf_nonneg _ _
  have he20 : e2 = 0 := le_antisymm hle hge
  have hc2eq : c2 = (w1, h1) := by
    have hz : errOf ⟨x', y', w1, h1⟩ c2 = 0 := by rw [← he2, he20]
    obtain ⟨hz1, hz2⟩ := (errOf_eq_zero _ _).mp hz
    exact Prod.ext hz1 hz2
  have hk2j : k2 = j := by
    apply List.getElem?_inj hk2 hnd
    rw [hc2, hc2eq, hj]
  rw [← hk2j, ← he20]
  exact hrun2

/-- C1: for a duplicate-free, non-empty candidate list, invoking the cycle
in one direction and then in the opposite direction against the size the
first call produced selects the starting candidate again: the second
call's nearest-match re-anchors with error 0 exactly on the size the first
call set, and the opposite-direction advance returns to the original
nearest index `k`. -/
theorem cycle_opposite_inverse
    (sizes : List (Int × Int)) (scaleFactor : Int) (workArea outerRect : Rect Int)
    (backwards maximized maximized2 : Bool) (x' y' : Int) (k : Nat) (e : Int)
    (w1 h1 x1 y1 : Int)
    (hnd : (scaledSizes sizes scaleFactor workArea).Nodup)
    (hnear : nearestLoop outerRect (scaledSizes sizes scaleFactor workArea) 0 none
      = some (k, e))
    (hfirst : (cycleWindowSizes maximized workArea outerRect sizes scaleFactor backwards).2
      = some (w1, h1, x1, y1)) :
    ∃ c x2 y2, (scaledSizes sizes scaleFactor workArea)[k]? = some c ∧
      (cycleWindowSizes maximized2 workArea ⟨x', y', w1, h1⟩ sizes scaleFactor
          (!backwards)).2
        = some (c.1, c.2, x2, y2) := by
  have hne : scaledSizes sizes scaleFactor workArea ≠ [] := by
    intro hnil
    rw [hnil] at hnear
    simp [nearestLoop] at hnear
  obtain ⟨k0, e0, hrun0, hk0, _, _, _⟩ :=
    findNearest_spec outerRect (scaledSizes sizes scaleFactor workArea) hne
  rw [hnear] at hrun0
  injection hrun0 with hpair
  rw [Prod.mk.injEq] at hpair
  obtain ⟨hkk, _⟩ := hpair
  rw [← hkk] at hk0
  have hn : 0 < (scaledSizes sizes scaleFactor workArea).length := by omega
  rcases hA : advance (scaledSizes sizes scaleFactor workArea) k backwards
    with _ | ⟨w, h⟩
  · rw [cycleWindowSizes.eq_def] at hfirst
    simp only [hnear, hA] at hfirst
    exact absurd hfirst (by simp)
  · rw [cycleWindowSizes.eq_def] at hfirst
    simp only [hnear, hA] at hfirst
    rw [Option.some.injEq, Prod.mk.injEq] at hfirst
    obtain ⟨hw, hfirst'⟩ := hfirst
    rw [Prod.mk.injEq] at hfirst'
    obtain ⟨hh, _⟩ := hfirst'
    subst hw
    subst hh
    cases backwards
    · have hj : (scaledSizes sizes scaleFactor workArea)[(k + 1) % (scaledSizes sizes scaleFactor workArea).length]? = some (w, h) := by
        rw [← advance_false _ k hk0]
        exact hA
      have hsec := nearest_refind (scaledSizes sizes scaleFactor workArea) x' y' w h
        ((k + 1) % (scaledSizes sizes scaleFactor workArea).length) hnd hj
      obtain ⟨ck, hck, hek⟩ :
          ∃ ck, (scaledSizes sizes scaleFactor workArea)[k]? = some ck ∧ True :=
        ⟨_, List.getElem?_eq_getElem hk0, trivial⟩
      obtain ⟨ckw, ckh⟩ := ck
      have hadv2 : advance (scaledSizes sizes scaleFactor workArea)
          ((k + 1) % (scaledSizes sizes scaleFactor workArea).length) (!false)
            = some (ckw, ckh) := by
        rw [Bool.not_false,
          advance_true _ _ (Nat.mod_lt _ hn),
          mod_succ_pred k _ hk0]
        exact hck
      refine ⟨(ckw, ckh), (clampPos workArea x' y' ckw ckh).1,
        (clampPos workArea x' y' ckw ckh).2, hck, ?_⟩
      rw [cycleWindowSizes.eq_def]
      simp only [hsec, hadv2]
    · have hj : (scaledSizes sizes scaleFactor workArea)[(k + (scaledSizes sizes scaleFactor workArea).length - 1) % (scaledSizes sizes scaleFactor workArea).length]? = some (w, h) := by
        rw [← advance_true _ k hk0]
        exact hA
      have hsec := nearest_refind (scaledSizes sizes scaleFactor workArea) x' y' w h
        ((k + (scaledSizes sizes scaleFactor workArea).length - 1)
          % (scaledSizes sizes scaleFactor workArea).length) hnd hj
      obtain ⟨ck, hck, hek⟩ :
          ∃ ck, (scaledSizes sizes scaleFactor workArea)[k]? = some ck ∧ True :=
        ⟨_, List.getElem?_eq_getElem hk0, trivial⟩
      obtain ⟨ckw, ckh⟩ := ck
      have hadv2 : advance (scaledSizes sizes scaleFactor workArea)
          ((k + (scaledSizes sizes scaleFactor workArea).length - 1)
            % (scaledSizes sizes scaleFactor workArea).length) (!true)
            = some (ckw, ckh) := by
        rw [Bool.not_true,
          advance_false _ _ (Nat.mod_lt _ hn),
          mod_pred_succ k _ hk0]
        exact hck
      refine ⟨(ckw, ckh), (clampPos workArea x' y' ckw ckh).1,
        (clampPos workArea x' y' ckw ckh).2, hck, ?_⟩
      rw [cycleWindowSizes.eq_def]
      simp only [hsec, hadv2]

/-- Witness for C1: sizes at scale 1 on a 2000×1200 work area, starting
from an exact 1280×720 match (nearest index 0), cycling forward to
1280×900 and then backward from that size. -/
theorem cycle_opposite_inverse_witness :
    ∃ c x2 y2, (scaledSizes SIZES 1 ⟨0, 0, 2000, 1200⟩)[0]? = some c ∧
      (cycleWindowSizes false ⟨0, 0, 2000, 1200⟩ ⟨0, 0, 1280, 900⟩ SIZES 1 (!false)).2
        = some (c.1, c.2, x2, y2) :=
  cycle_opposite_inverse SIZES 1 ⟨0, 0, 2000, 1200⟩ ⟨0, 0, 1280, 720⟩ false false false
    0 0 0 0 1280 900 0 0 (by decide) (by decide) (by decide)

end WindowResizer
